import Mathlib

/-!
Verification of the docking-analysis pipeline (`dockingAnalysis.py`).

The development shallowly embeds the parts of `DockingAnalyzer` that the
specification talks about:

* the conformer reduction performed by `_rdockDataFrameTrimmer` (dock branch)
  and by the dock branch of `_glideDataFrameRetriever`
  (sort by score, drop duplicate ligands keeping the first, re-sort by ligand);
* the derived conformer-index column of `_glideDataFrameRetriever`;
* the line scanner of `_rdockDataFrameGenerator` (dock branch);
* the result checkers `_rdockDockingResultsChecker` and
  `_glideDockingResultsChecker`;
* the numeric core of `_correlationPlotter` (z-scores and the regression
  statistics of `scipy.stats.linregress`);
* the molecular-weight batch of `_molecularWeightCalculator`;
* the stage sequencing of `glideAnalysis`.

Python floats are modelled by `ℚ` where only ordering and exact counting
matter, and by `ℝ` where square roots occur (standard deviations, Pearson r).
Python exceptions are modelled by `Except PyError`.
-/

/-- The exceptions that `dockingAnalysis.py` can raise.  The first three are
the `raise Exception(...)` messages appearing in the source
(`ResultsMissingError`, `OutputError`, `ProtocolError`); the rest are the
Python runtime errors its operations can produce. -/
inductive PyError where
  | resultsMissingError
  | outputError
  | protocolError
  | indexError
  | typeError
  | nameError
  | valueError
  | zeroDivisionError
deriving DecidableEq, Repr

deriving instance DecidableEq for Except

/-! ## Conformer reduction (`_rdockDataFrameTrimmer`, `_glideDataFrameRetriever`)

`pandas.sort_values` followed by `drop_duplicates(keep='first')` followed by a
re-sort on the key column.  Sorting is modelled by the stable
`List.insertionSort`; `drop_duplicates` keeps the first occurrence of each
key. -/

/-- A row of `rDock_data.csv` as consumed by `_rdockDataFrameTrimmer`:
columns `file_name`, `file_entry`, `ligand`, `conformer`, `rdock_score`. -/
structure TrimRow where
  fileName : String
  entry : Nat
  ligand : String
  conformer : Nat
  score : ℚ
deriving DecidableEq, Repr

/-- A row of the Glide results table after `_glideDataFrameRetriever` keeps
the columns `SMILES`, `title`, `i_i_glide_lignum`, `r_glide_cpu_time`,
`r_i_docking_score` and inserts the derived `conformer` column. -/
structure GlideRow where
  smiles : String
  title : String
  conformer : Int
  lignum : Int
  cpuTime : ℚ
  score : ℚ
deriving DecidableEq, Repr

/-- `pandas.DataFrame.drop_duplicates(key, keep='first')`: keep each row whose
key has not been seen before, in order. -/
def dropDupBy {α κ : Type} [DecidableEq κ] (key : α → κ) : List α → List κ → List α
  | [], _ => []
  | r :: rs, seen =>
    if key r ∈ seen then dropDupBy key rs seen
    else r :: dropDupBy key rs (key r :: seen)

/-- Stable sort of rows by a projected key (models `sort_values`). -/
def sortOn {α κ : Type} [LinearOrder κ] (key : α → κ) (l : List α) : List α :=
  l.insertionSort (fun a b => key a ≤ key b)

/-- The reduction shared by both tools: sort ascending by score, keep the
first (lowest-score) row of each key, re-sort by key. -/
def bestPoseReduce {α κ : Type} [DecidableEq κ] [LinearOrder κ]
    (key : α → κ) (sc : α → ℚ) (l : List α) : List α :=
  sortOn key (dropDupBy key (sortOn sc l) [])

/-- `_rdockDataFrameTrimmer`, dock branch: `sort_values('rdock_score')`,
`drop_duplicates('ligand')`, `sort_values('ligand')`.  (The derived
`docking_conformation` column added afterwards is a function of the retained
row and does not alter which rows are retained.) -/
def rdockTrim (l : List TrimRow) : List TrimRow :=
  bestPoseReduce TrimRow.ligand TrimRow.score l

/-- The two-column key `['title','i_i_glide_lignum']`, ordered
lexicographically as `pandas.sort_values` orders a two-column sort. -/
def glideKey2 (r : GlideRow) : String ×ₗ Int :=
  toLex (r.title, r.lignum)

/-- `_glideDataFrameRetriever`, dock branch, lines 341-349:
`sort_values('r_i_docking_score')`,
`drop_duplicates(['title','i_i_glide_lignum'])`,
`sort_values(['title','i_i_glide_lignum'])`, `sort_values('r_i_docking_score')`,
`drop_duplicates('title')`, `sort_values('title')`. -/
def glideReduce (l : List GlideRow) : List GlideRow :=
  bestPoseReduce GlideRow.title GlideRow.score
    (sortOn glideKey2 (dropDupBy glideKey2 (sortOn GlideRow.score l) []))

section DropDupLemmas

variable {α κ : Type} [DecidableEq κ] (key : α → κ) (sc : α → ℚ)

theorem mem_of_mem_dropDupBy :
    ∀ (xs : List α) (seen : List κ) (r : α),
      r ∈ dropDupBy key xs seen → r ∈ xs ∧ key r ∉ seen := by
  intro xs
  induction xs with
  | nil => intro seen r h; simp [dropDupBy] at h
  | cons x tl ih =>
    intro seen r h
    by_cases hx : key x ∈ seen
    · simp only [dropDupBy, if_pos hx] at h
      rcases ih seen r h with ⟨hm, hns⟩
      exact ⟨List.mem_cons_of_mem _ hm, hns⟩
    · simp only [dropDupBy, if_neg hx] at h
      rcases List.mem_cons.1 h with h | h
      · exact ⟨by simp [h], by simpa [h] using hx⟩
      · rcases ih _ r h with ⟨hm, hns⟩
        refine ⟨List.mem_cons_of_mem _ hm, fun hc => hns ?_⟩
        exact List.mem_cons_of_mem _ hc

theorem key_mem_dropDupBy :
    ∀ (xs : List α) (seen : List κ) (k : κ),
      k ∈ (dropDupBy key xs seen).map key ↔ k ∈ xs.map key ∧ k ∉ seen := by
  intro xs
  induction xs with
  | nil => intro seen k; simp [dropDupBy]
  | cons x tl ih =>
    intro seen k
    by_cases hx : key x ∈ seen
    · simp only [dropDupBy, if_pos hx, List.map_cons, List.mem_cons]
      rw [ih]
      constructor
      · rintro ⟨h, hns⟩; exact ⟨Or.inr h, hns⟩
      · rintro ⟨h | h, hns⟩
        · exact absurd (h ▸ hx) hns
        · exact ⟨h, hns⟩
    · simp only [dropDupBy, if_neg hx, List.map_cons, List.mem_cons]
      rw [ih]
      constructor
      · rintro (h | ⟨h, hns⟩)
        · exact ⟨Or.inl h, h ▸ hx⟩
        · refine ⟨Or.inr h, fun hc => hns (List.mem_cons_of_mem _ hc)⟩
      · rintro ⟨h | h, hns⟩
        · exact Or.inl h
        · by_cases hk : k = key x
          · exact Or.inl hk
          · exact Or.inr ⟨h, by simp [hk, hns]⟩

theorem nodup_keys_dropDupBy :
    ∀ (xs : List α) (seen : List κ),
      ((dropDupBy key xs seen).map key).Nodup := by
  intro xs
  induction xs with
  | nil => intro seen; simp [dropDupBy]
  | cons x tl ih =>
    intro seen
    by_cases hx : key x ∈ seen
    · simpa only [dropDupBy, if_pos hx] using ih seen
    · simp only [dropDupBy, if_neg hx, List.map_cons, List.nodup_cons]
      refine ⟨fun hc => ?_, ih _⟩
      rcases (key_mem_dropDupBy key tl _ (key x)).1 hc with ⟨_, hns⟩
      simp at hns

theorem dropDupBy_min (xs : List α) (seen : List κ)
    (hs : xs.Pairwise (fun a b => sc a ≤ sc b)) :
    ∀ r ∈ dropDupBy key xs seen, ∀ s ∈ xs, key s = key r → sc r ≤ sc s := by
  induction xs generalizing seen with
  | nil => intro r hr; simp [dropDupBy] at hr
  | cons x tl ih =>
    rcases List.pairwise_cons.1 hs with ⟨hx, htl⟩
    intro r hr s hsm hks
    by_cases hxk : key x ∈ seen
    · simp only [dropDupBy, if_pos hxk] at hr
      rcases List.mem_cons.1 hsm with hsx | hstl
      · exfalso
        rcases mem_of_mem_dropDupBy key tl seen r hr with ⟨_, hns⟩
        subst hsx
        exact hns (by rw [← hks]; exact hxk)
      · exact ih seen htl r hr s hstl hks
    · simp only [dropDupBy, if_neg hxk] at hr
      rcases List.mem_cons.1 hr with hr | hr
      · subst hr
        rcases List.mem_cons.1 hsm with hsx | hstl
        · rw [hsx]
        · exact hx s hstl
      · rcases List.mem_cons.1 hsm with hsx | hstl
        · exfalso
          rcases mem_of_mem_dropDupBy key tl _ r hr with ⟨_, hns⟩
          subst hsx
          exact hns (by rw [← hks]; exact List.mem_cons_self _ _)
        · exact ih _ htl r hr s hstl hks

theorem dropDupBy_rep (xs : List α) (seen : List κ)
    (hs : xs.Pairwise (fun a b => sc a ≤ sc b)) :
    ∀ s ∈ xs, key s ∉ seen →
      ∃ r ∈ dropDupBy key xs seen, key r = key s ∧ sc r ≤ sc s := by
  induction xs generalizing seen with
  | nil => intro s hs'; simp at hs'
  | cons x tl ih =>
    rcases List.pairwise_cons.1 hs with ⟨hx, htl⟩
    intro s hsm hns
    by_cases hxk : key x ∈ seen
    · rcases List.mem_cons.1 hsm with hsx | hstl
      · exact absurd (by rw [hsx]; exact hxk) hns
      · simp only [dropDupBy, if_pos hxk]
        exact ih seen htl s hstl hns
    · simp only [dropDupBy, if_neg hxk]
      rcases List.mem_cons.1 hsm with hsx | hstl
      · subst hsx
        exact ⟨s, List.mem_cons_self _ _, rfl, le_refl _⟩
      · by_cases hk : key s = key x
        · exact ⟨x, List.mem_cons_self _ _, hk.symm, hx s hstl⟩
        · rcases ih (key x :: seen) htl s hstl (by simp [hk, hns]) with
            ⟨r, hrm, hkr, hsc⟩
          exact ⟨r, List.mem_cons_of_mem _ hrm, hkr, hsc⟩

end DropDupLemmas

section BestPoseLemmas

variable {α κ : Type} [DecidableEq κ] [LinearOrder κ]
variable (key : α → κ) (sc : α → ℚ)

omit [DecidableEq κ] in
theorem sortOn_perm (l : List α) : List.Perm (sortOn key l) l :=
  List.perm_insertionSort _ l

omit [DecidableEq κ] in
theorem sortOn_pairwise (l : List α) :
    (sortOn key l).Pairwise (fun a b => key a ≤ key b) := by
  haveI : IsTotal α (fun a b => key a ≤ key b) := ⟨fun a b => le_total _ _⟩
  haveI : IsTrans α (fun a b => key a ≤ key b) :=
    ⟨fun _ _ _ hab hbc => le_trans hab hbc⟩
  exact List.sorted_insertionSort _ l

theorem bestPoseReduce_mem_min {l : List α} :
    ∀ r ∈ bestPoseReduce key sc l, r ∈ l ∧ ∀ s ∈ l, key s = key r → sc r ≤ sc s := by
  intro r hr
  have hr' : r ∈ dropDupBy key (sortOn sc l) [] :=
    ((sortOn_perm key _).mem_iff).1 hr
  have hm := mem_of_mem_dropDupBy key (sortOn sc l) [] r hr'
  constructor
  · exact ((sortOn_perm sc l).mem_iff).1 hm.1
  · intro s hs hks
    exact dropDupBy_min key sc (sortOn sc l) [] (sortOn_pairwise sc l) r hr' s
      (((sortOn_perm sc l).mem_iff).2 hs) hks

theorem bestPoseReduce_key_mem {l : List α} (k : κ) :
    k ∈ (bestPoseReduce key sc l).map key ↔ k ∈ l.map key := by
  have h1 : List.Perm ((bestPoseReduce key sc l).map key)
      ((dropDupBy key (sortOn sc l) []).map key) :=
    (sortOn_perm key _).map key
  have h2 : List.Perm ((sortOn sc l).map key) (l.map key) :=
    (sortOn_perm sc l).map key
  rw [h1.mem_iff, key_mem_dropDupBy, h2.mem_iff]
  simp

theorem bestPoseReduce_key_nodup (l : List α) :
    ((bestPoseReduce key sc l).map key).Nodup := by
  have h1 : List.Perm ((bestPoseReduce key sc l).map key)
      ((dropDupBy key (sortOn sc l) []).map key) :=
    (sortOn_perm key _).map key
  exact h1.nodup_iff.2 (nodup_keys_dropDupBy key _ [])

theorem bestPoseReduce_sorted (l : List α) :
    (bestPoseReduce key sc l).Pairwise (fun a b => key a ≤ key b) :=
  sortOn_pairwise key _

theorem bestPoseReduce_length (l : List α) :
    (bestPoseReduce key sc l).length = (l.map key).toFinset.card := by
  have hset : ((bestPoseReduce key sc l).map key).toFinset = (l.map key).toFinset := by
    ext k
    simp only [List.mem_toFinset]
    exact bestPoseReduce_key_mem key sc k
  calc (bestPoseReduce key sc l).length
      = ((bestPoseReduce key sc l).map key).length := (List.length_map _ _).symm
    _ = ((bestPoseReduce key sc l).map key).toFinset.card :=
        (List.toFinset_card_of_nodup (bestPoseReduce_key_nodup key sc l)).symm
    _ = (l.map key).toFinset.card := by rw [hset]

theorem bestPoseReduce_mem_iff {l : List α}
    (tf : ∀ r ∈ l, ∀ s ∈ l, key r = key s → sc r = sc s → r = s) (r : α) :
    r ∈ bestPoseReduce key sc l ↔
      r ∈ l ∧ ∀ s ∈ l, key s = key r → sc r ≤ sc s := by
  constructor
  · exact fun h => bestPoseReduce_mem_min key sc r h
  · rintro ⟨hrl, hmin⟩
    have hk : key r ∈ (bestPoseReduce key sc l).map key :=
      (bestPoseReduce_key_mem key sc _).2 (List.mem_map_of_mem key hrl)
    rcases List.mem_map.1 hk with ⟨w, hw, hkw⟩
    rcases bestPoseReduce_mem_min key sc w hw with ⟨hwl, hwmin⟩
    have h1 : sc w ≤ sc r := hwmin r hrl hkw.symm
    have h2 : sc r ≤ sc w := hmin w hwl hkw
    have : w = r := tf w hwl r hrl hkw (le_antisymm h1 h2)
    exact this ▸ hw

omit [DecidableEq κ] in
theorem eq_of_key_sorted_nodup :
    ∀ (u v : List α), u.Pairwise (fun a b => key a ≤ key b) →
      (u.map key).Nodup → v.Pairwise (fun a b => key a ≤ key b) →
      (v.map key).Nodup → (∀ r, r ∈ u ↔ r ∈ v) → u = v := by
  intro u
  induction u with
  | nil =>
    intro v _ _ _ _ hm
    cases v with
    | nil => rfl
    | cons b v' => exact absurd ((hm b).2 (List.mem_cons_self _ _)) (by simp)
  | cons a u' ih =>
    intro v hu1 hu2 hv1 hv2 hm
    cases v with
    | nil => exact absurd ((hm a).1 (List.mem_cons_self _ _)) (by simp)
    | cons b v' =>
      rcases List.pairwise_cons.1 hu1 with ⟨hua, hu1'⟩
      rcases List.pairwise_cons.1 hv1 with ⟨hvb, hv1'⟩
      simp only [List.map_cons, List.nodup_cons] at hu2 hv2
      have hab : a = b := by
        rcases List.mem_cons.1 ((hm b).2 (List.mem_cons_self _ _)) with h | hbu'
        · exact h.symm
        · rcases List.mem_cons.1 ((hm a).1 (List.mem_cons_self _ _)) with h | hav'
          · exact h
          · have h1 : key a ≤ key b := hua b hbu'
            have h2 : key b ≤ key a := hvb a hav'
            have hk : key a = key b := le_antisymm h1 h2
            exact absurd (hk ▸ List.mem_map_of_mem key hav') hv2.1
      subst hab
      have hm' : ∀ r, r ∈ u' ↔ r ∈ v' := by
        intro r
        constructor
        · intro hr
          rcases List.mem_cons.1 ((hm r).1 (List.mem_cons_of_mem _ hr)) with h | h
          · subst h
            exact absurd (List.mem_map_of_mem key hr) hu2.1
          · exact h
        · intro hr
          rcases List.mem_cons.1 ((hm r).2 (List.mem_cons_of_mem _ hr)) with h | h
          · subst h
            exact absurd (List.mem_map_of_mem key hr) hv2.1
          · exact h
      rw [ih v' hu1' hu2.2 hv1' hv2.2 hm']

theorem bestPoseReduce_perm_invariant {l l' : List α}
    (tf : ∀ r ∈ l, ∀ s ∈ l, key r = key s → sc r = sc s → r = s)
    (hp : List.Perm l l') :
    bestPoseReduce key sc l = bestPoseReduce key sc l' := by
  have tf' : ∀ r ∈ l', ∀ s ∈ l', key r = key s → sc r = sc s → r = s := by
    intro r hr s hs
    exact tf r (hp.mem_iff.2 hr) s (hp.mem_iff.2 hs)
  apply eq_of_key_sorted_nodup key
  · exact bestPoseReduce_sorted key sc l
  · exact bestPoseReduce_key_nodup key sc l
  · exact bestPoseReduce_sorted key sc l'
  · exact bestPoseReduce_key_nodup key sc l'
  · intro r
    rw [bestPoseReduce_mem_iff key sc tf r, bestPoseReduce_mem_iff key sc tf' r]
    constructor
    · rintro ⟨h1, h2⟩
      exact ⟨hp.mem_iff.1 h1, fun s hs => h2 s (hp.mem_iff.2 hs)⟩
    · rintro ⟨h1, h2⟩
      exact ⟨hp.mem_iff.2 h1, fun s hs => h2 s (hp.mem_iff.1 hs)⟩

end BestPoseLemmas

/-! ## Properties of the two concrete reductions -/

/-- The intermediate Glide table: score-sorted, deduplicated on the
two-column key, re-sorted on that key. -/
def glideMid (l : List GlideRow) : List GlideRow :=
  sortOn glideKey2 (dropDupBy glideKey2 (sortOn GlideRow.score l) [])

theorem glideReduce_eq (l : List GlideRow) :
    glideReduce l = bestPoseReduce GlideRow.title GlideRow.score (glideMid l) :=
  rfl

theorem glideKey2_title {r r' : GlideRow} (h : glideKey2 r = glideKey2 r') :
    r.title = r'.title := by
  have := congrArg (fun p => (ofLex p).1) h
  simpa [glideKey2] using this

theorem glideMid_subset {l : List GlideRow} {r : GlideRow} (h : r ∈ glideMid l) :
    r ∈ l := by
  have h1 : r ∈ dropDupBy glideKey2 (sortOn GlideRow.score l) [] :=
    ((sortOn_perm glideKey2 _).mem_iff).1 h
  have h2 := (mem_of_mem_dropDupBy glideKey2 _ [] r h1).1
  exact ((sortOn_perm GlideRow.score l).mem_iff).1 h2

theorem glideMid_rep {l : List GlideRow} {s : GlideRow} (h : s ∈ l) :
    ∃ r ∈ glideMid l, glideKey2 r = glideKey2 s ∧ r.score ≤ s.score := by
  have hs : s ∈ sortOn GlideRow.score l :=
    ((sortOn_perm GlideRow.score l).mem_iff).2 h
  rcases dropDupBy_rep glideKey2 GlideRow.score (sortOn GlideRow.score l) []
      (sortOn_pairwise GlideRow.score l) s hs (by simp) with ⟨r, hrm, hk, hsc⟩
  exact ⟨r, ((sortOn_perm glideKey2 _).mem_iff).2 hrm, hk, hsc⟩

theorem glideMid_title_mem {l : List GlideRow} (k : String) :
    k ∈ (glideMid l).map GlideRow.title ↔ k ∈ l.map GlideRow.title := by
  constructor
  · intro hk
    rcases List.mem_map.1 hk with ⟨r, hr, hrt⟩
    exact List.mem_map.2 ⟨r, glideMid_subset hr, hrt⟩
  · intro hk
    rcases List.mem_map.1 hk with ⟨s, hs, hst⟩
    rcases glideMid_rep hs with ⟨r, hrm, hk2, _⟩
    exact List.mem_map.2 ⟨r, hrm, by rw [glideKey2_title hk2, hst]⟩

/-- Claim C1.  For every list of pose records, the conformer reduction
(`_rdockDataFrameTrimmer` dock branch; the reduction steps of
`_glideDataFrameRetriever` dock branch) keeps exactly one record per distinct
ligand id observed in the input, each retained record is an input record with
the minimum raw score among the input records of its ligand, and the output
is ordered ascending by ligand id. -/
theorem rdockTrim_glideReduce_one_best_sorted :
    (∀ l : List TrimRow,
      (rdockTrim l).length = (l.map TrimRow.ligand).toFinset.card ∧
      ((rdockTrim l).map TrimRow.ligand).Nodup ∧
      (∀ r ∈ rdockTrim l, r ∈ l ∧
        ∀ s ∈ l, s.ligand = r.ligand → r.score ≤ s.score) ∧
      (rdockTrim l).Pairwise (fun a b => a.ligand ≤ b.ligand)) ∧
    (∀ l : List GlideRow,
      (glideReduce l).length = (l.map GlideRow.title).toFinset.card ∧
      ((glideReduce l).map GlideRow.title).Nodup ∧
      (∀ r ∈ glideReduce l, r ∈ l ∧
        ∀ s ∈ l, s.title = r.title → r.score ≤ s.score) ∧
      (glideReduce l).Pairwise (fun a b => a.title ≤ b.title)) := by
  constructor
  · intro l
    refine ⟨bestPoseReduce_length _ _ l, bestPoseReduce_key_nodup _ _ l,
      ?_, bestPoseReduce_sorted _ _ l⟩
    exact fun r hr => bestPoseReduce_mem_min TrimRow.ligand TrimRow.score r hr
  · intro l
    rw [glideReduce_eq]
    refine ⟨?_, bestPoseReduce_key_nodup _ _ _, ?_, bestPoseReduce_sorted _ _ _⟩
    · rw [bestPoseReduce_length]
      congr 1
      ext k
      simp only [List.mem_toFinset]
      exact glideMid_title_mem k
    · intro r hr
      rcases bestPoseReduce_mem_min GlideRow.title GlideRow.score r hr with
        ⟨hrm, hrmin⟩
      refine ⟨glideMid_subset hrm, ?_⟩
      intro s hs hts
      rcases glideMid_rep hs with ⟨w, hwm, hwk, hwsc⟩
      have hwt : w.title = r.title := by rw [glideKey2_title hwk, hts]
      exact le_trans (hrmin w hwm hwt) hwsc

/-! ## Order dependence of the reduction (claim C2) -/

/-- Two poses of the same ligand with tied scores (different conformers). -/
def tiedPoses : List TrimRow :=
  [⟨"file1", 1, "LIG1", 1, -5⟩, ⟨"file1", 2, "LIG1", 2, -5⟩]

/-- Claim C2, counterexample.  `tiedPoses.reverse` is a permutation of
`tiedPoses`, yet the reduction keeps a different record: with two records of
one ligand tied on score, the winner depends on the order in which the
records were read. -/
theorem rdockTrim_not_perm_invariant :
    List.Perm tiedPoses tiedPoses.reverse ∧
    rdockTrim tiedPoses ≠ rdockTrim tiedPoses.reverse :=
  ⟨(List.reverse_perm tiedPoses).symm, by decide⟩

/-- Claim C2, amended.  If no two distinct records of one ligand carry equal
raw scores, the reduction of both tools is invariant under every permutation
of its input. -/
theorem reduce_perm_invariant_of_no_ties :
    (∀ (l l' : List TrimRow),
      (∀ r ∈ l, ∀ s ∈ l, r.ligand = s.ligand → r.score = s.score → r = s) →
      List.Perm l l' → rdockTrim l = rdockTrim l') ∧
    (∀ (l l' : List GlideRow),
      (∀ r ∈ l, ∀ s ∈ l, r.title = s.title → r.score = s.score → r = s) →
      List.Perm l l' → glideReduce l = glideReduce l') := by
  constructor
  · intro l l' tf hp
    exact bestPoseReduce_perm_invariant TrimRow.ligand TrimRow.score tf hp
  · intro l l' tf hp
    have tf2 : ∀ r ∈ l, ∀ s ∈ l,
        glideKey2 r = glideKey2 s → r.score = s.score → r = s :=
      fun r hr s hs hk hsc => tf r hr s hs (glideKey2_title hk) hsc
    have hmid : glideMid l = glideMid l' :=
      bestPoseReduce_perm_invariant glideKey2 GlideRow.score tf2 hp
    rw [glideReduce_eq, glideReduce_eq, hmid]

/-- Three tie-free poses used to witness `reduce_perm_invariant_of_no_ties`. -/
def tieFreePoses : List TrimRow :=
  [⟨"file1", 1, "LIG1", 1, -5⟩, ⟨"file1", 2, "LIG1", 2, -6⟩,
   ⟨"file2", 1, "LIG2", 1, -4⟩]

theorem reduce_perm_invariant_of_no_ties_witness :
    rdockTrim tieFreePoses = rdockTrim tieFreePoses.reverse :=
  reduce_perm_invariant_of_no_ties.1 tieFreePoses tieFreePoses.reverse
    (by decide) (List.reverse_perm tieFreePoses).symm

/-! ## Derived conformer index (`_glideDataFrameRetriever`, lines 325-336)

The loop walks the rows in order carrying `prev_title` and `prev_value`;
whenever the title changes it restarts the run and records the row's raw
`i_i_glide_lignum` as the run's first value; every row contributes
`i_i_glide_lignum - prev_value`, and the stored column is that value plus
one. A row is modelled by its `(title, i_i_glide_lignum)` pair. -/

def glideConformerAux (prevTitle : Option String) (prevValue : Int) :
    List (String × Int) → List Int
  | [] => []
  | (t, v) :: rest =>
    if some t ≠ prevTitle then
      (v - v + 1) :: glideConformerAux (some t) v rest
    else
      (v - prevValue + 1) :: glideConformerAux prevTitle prevValue rest

/-- The `conformer` column.  Python starts with `prev_title = None` and
`prev_value = None`; the first row always takes the title-changed branch, so
`prev_value` is never read before being assigned and the model may seed it
with `0`. -/
def glideConformerCol (l : List (String × Int)) : List Int :=
  glideConformerAux none 0 l

/-- The `(prev_title, prev_value)` state after a list of rows. -/
def glideConformerState : Option String × Int → List (String × Int) → Option String × Int
  | s, [] => s
  | (pt, pv), (t, v) :: rest =>
    if some t ≠ pt then glideConformerState (some t, v) rest
    else glideConformerState (pt, pv) rest

theorem glideConformerAux_append (xs ys : List (String × Int)) :
    ∀ pt pv, glideConformerAux pt pv (xs ++ ys) =
      glideConformerAux pt pv xs ++
        glideConformerAux (glideConformerState (pt, pv) xs).1
          (glideConformerState (pt, pv) xs).2 ys := by
  induction xs with
  | nil => intro pt pv; simp [glideConformerAux, glideConformerState]
  | cons x rest ih =>
    intro pt pv
    rcases x with ⟨t, v⟩
    by_cases h : some t ≠ pt
    · simp only [List.cons_append, glideConformerAux, glideConformerState,
        if_pos h, List.cons_append, List.append_eq]
      rw [ih]
    · simp only [List.cons_append, glideConformerAux, glideConformerState,
        if_neg h, List.cons_append, List.append_eq]
      rw [ih]

theorem glideConformerState_last (xs : List (String × Int)) (a : String × Int) :
    ∀ pt pv, (glideConformerState (pt, pv) (xs ++ [a])).1 = some a.1 := by
  induction xs with
  | nil =>
    intro pt pv
    rcases a with ⟨t, v⟩
    by_cases h : some t ≠ pt
    · simp [glideConformerState, if_pos h]
    · simp only [List.nil_append, glideConformerState, if_neg h]
      push_neg at h
      simp [glideConformerState, ← h]
  | cons x rest ih =>
    intro pt pv
    rcases x with ⟨t, v⟩
    by_cases h : some t ≠ pt
    · simp only [List.cons_append, glideConformerState, if_pos h]
      exact ih _ _
    · simp only [List.cons_append, glideConformerState, if_neg h]
      exact ih _ _

theorem glideConformerAux_length (xs : List (String × Int)) :
    ∀ pt pv, (glideConformerAux pt pv xs).length = xs.length := by
  induction xs with
  | nil => intro pt pv; simp [glideConformerAux]
  | cons x rest ih =>
    intro pt pv
    rcases x with ⟨t, v⟩
    by_cases h : some t ≠ pt
    · simp only [glideConformerAux, if_pos h, List.length_cons, ih]
    · simp only [glideConformerAux, if_neg h, List.length_cons, ih]

theorem glideConformerAux_run (t : String) (v₀ v : Int) (post : List (String × Int)) :
    ∀ (mid : List (String × Int)), (∀ x ∈ mid, x.1 = t) →
      glideConformerAux (some t) v₀ (mid ++ ((t, v) :: post)) =
        mid.map (fun x => x.2 - v₀ + 1) ++
          ((v - v₀ + 1) :: glideConformerAux (some t) v₀ post) := by
  intro mid
  induction mid with
  | nil =>
    intro _
    simp [glideConformerAux]
  | cons x rest ih =>
    intro hmid
    rcases x with ⟨t2, w⟩
    have ht2 : t2 = t := hmid (t2, w) (List.mem_cons_self _ _)
    subst ht2
    have hcond : ¬(some t2 ≠ some t2) := by simp
    simp only [List.cons_append, glideConformerAux, if_neg hcond,
      List.map_cons, List.cons_append, List.append_eq]
    rw [ih (fun x hx => hmid x (List.mem_cons_of_mem _ hx))]

/-- Claim C3.  In the tabular (Glide) ingestion, whenever the rows from some
position on form a contiguous run of title `t` starting right after the
prefix `pre` (whose last row, if any, has a different title), every row of
the run receives conformer index `raw value - first raw value of the run + 1`,
and in particular the first row of the run receives index 1 regardless of the
run's starting offset. -/
theorem glideConformerCol_run_indexed
    (pre mid post : List (String × Int)) (t : String) (v₀ v : Int)
    (hpre : ∀ a, pre.getLast? = some a → a.1 ≠ t)
    (hmid : ∀ x ∈ mid, x.1 = t) :
    (glideConformerCol (pre ++ ((t, v₀) :: (mid ++ ((t, v) :: post)))))[pre.length]? =
      some 1 ∧
    (glideConformerCol (pre ++ ((t, v₀) :: (mid ++
        ((t, v) :: post)))))[pre.length + mid.length + 1]? =
      some (v - v₀ + 1) := by
  have hstate : (glideConformerState (none, 0) pre).1 ≠ some t := by
    rcases List.eq_nil_or_concat pre with hnil | ⟨p, a, hpa⟩
    · rw [hnil]; simp [glideConformerState]
    · rw [hpa, List.concat_eq_append, glideConformerState_last]
      intro hc
      exact hpre a (by rw [hpa]; simp) (Option.some_injective _ hc)
  set st := glideConformerState (none, 0) pre with hst
  have hsplit : glideConformerCol (pre ++ ((t, v₀) :: (mid ++ ((t, v) :: post)))) =
      glideConformerAux none 0 pre ++
        glideConformerAux st.1 st.2 ((t, v₀) :: (mid ++ ((t, v) :: post))) := by
    rw [glideConformerCol,
      glideConformerAux_append pre ((t, v₀) :: (mid ++ ((t, v) :: post)))]
  have hhead : glideConformerAux st.1 st.2 ((t, v₀) :: (mid ++ ((t, v) :: post))) =
      (v₀ - v₀ + 1) :: glideConformerAux (some t) v₀ (mid ++ ((t, v) :: post)) := by
    have hne : some t ≠ st.1 := fun hc => hstate hc.symm
    simp only [glideConformerAux, if_pos hne]
  have hrun := glideConformerAux_run t v₀ v post mid hmid
  have hlenpre : (glideConformerAux none 0 pre).length = pre.length :=
    glideConformerAux_length pre none 0
  constructor
  · rw [hsplit, List.getElem?_append_right hlenpre.le, hlenpre]
    simp [hhead]
  · rw [hsplit,
      List.getElem?_append_right (le_trans hlenpre.le (by omega)), hlenpre]
    have harith : pre.length + mid.length + 1 - pre.length = mid.length + 1 := by
      omega
    rw [harith, hhead, hrun]
    have hmap : (mid.map (fun x => x.2 - v₀ + 1)).length = mid.length := by simp
    rw [List.getElem?_cons_succ, List.getElem?_append_right hmap.le, hmap]
    simp

theorem glideConformerCol_run_indexed_witness :
    (glideConformerCol (([] : List (String × Int)) ++ (("LIG2", 10) ::
        ([("LIG2", 11)] ++ (("LIG2", 12) :: [])))))[
          List.length ([] : List (String × Int))]? = some 1 ∧
    (glideConformerCol (([] : List (String × Int)) ++ (("LIG2", 10) ::
        ([("LIG2", 11)] ++ (("LIG2", 12) :: [])))))[
          List.length ([] : List (String × Int)) +
            List.length [("LIG2", 11)] + 1]? = some (12 - 10 + 1) :=
  glideConformerCol_run_indexed [] [("LIG2", 11)] [] "LIG2" 10 12
    (fun a ha => by simp at ha) (by decide)

/-! ## Sharded-record scanner (`_rdockDataFrameGenerator`, dock branch)

The Python loop over the lines of one `split*` file keeps `counter` (record
number, advanced by the `$$$$` delimiter), a `score` local that persists
between lines, and two boolean flags that are set exactly when the current
line contains the corresponding marker and are reset on every other line.
`score = line.split()[0]` fails with `IndexError` on a blank line;
`ligand, conformer = line.split('-')` fails with `ValueError` unless the
split yields exactly two parts; reading the `score` local before any score
value line has been seen fails with `NameError`. -/

/-- `p.isPrefixOf l` at every suffix: Python's `pat in line`. -/
def listContainsSub (p : List Char) : List Char → Bool
  | [] => p.isEmpty
  | c :: rest => p.isPrefixOf (c :: rest) || listContainsSub p rest

/-- Python `pat in line` for strings. -/
def pyIn (pat line : String) : Bool :=
  listContainsSub pat.data line.data

/-- Whitespace tokenizer: Python `line.split()` drops empty pieces. -/
def splitWsAux : List Char → List Char → List String
  | [], cur => if cur.isEmpty then [] else [⟨cur.reverse⟩]
  | c :: rest, cur =>
    if c.isWhitespace then
      if cur.isEmpty then splitWsAux rest []
      else ⟨cur.reverse⟩ :: splitWsAux rest []
    else splitWsAux rest (c :: cur)

/-- Python `line.split()`. -/
def pySplit (s : String) : List String :=
  splitWsAux s.data []

/-- Single-character splitter keeping empty pieces: Python `line.split('-')`. -/
def splitOnCharAux (sep : Char) : List Char → List Char → List String
  | [], cur => [⟨cur.reverse⟩]
  | c :: rest, cur =>
    if c = sep then ⟨cur.reverse⟩ :: splitOnCharAux sep rest []
    else splitOnCharAux sep rest (c :: cur)

/-- Python `line.split('-')`. -/
def pySplitOnDash (s : String) : List String :=
  splitOnCharAux '-' s.data []

def dollarsMark : String := "$$$$"

def scoreMark : String := ">  <SCORE>"

def variantMark : String := ">  <s_lp_Variant>"

/-- One row appended to `data`: `[filename, counter, ligand, conformer, score]`. -/
structure SdRow where
  fileName : String
  entry : Nat
  ligand : String
  conformer : String
  score : String
deriving DecidableEq, Repr

/-- The loop state of the scanner. -/
structure ScanState where
  counter : Nat
  score : Option String
  scoreBool : Bool
  confBool : Bool
  rows : List SdRow
deriving DecidableEq, Repr

/-- `if score_bool: score = line.split()[0]`. -/
def scanScore (st : ScanState) (line : String) : Except PyError (Option String) :=
  if st.scoreBool then
    match pySplit line with
    | [] => Except.error PyError.indexError
    | s :: _ => Except.ok (some s)
  else Except.ok st.score

/-- `if conformer_bool: ligand, conformer = line.split('-'); data.append(...)`. -/
def scanRows (fname : String) (st : ScanState) (line : String)
    (score : Option String) : Except PyError (List SdRow) :=
  if st.confBool then
    match pySplitOnDash line with
    | [lig, conf] =>
      match score with
      | some sc => Except.ok (st.rows ++ [⟨fname, st.counter, lig, conf, sc⟩])
      | none => Except.error PyError.nameError
    | _ => Except.error PyError.valueError
  else Except.ok st.rows

/-- One iteration of the line loop. -/
def rdockScanLine (fname : String) (st : ScanState) (line : String) :
    Except PyError ScanState :=
  match scanScore st line with
  | Except.error e => Except.error e
  | Except.ok score =>
    match scanRows fname st line score with
    | Except.error e => Except.error e
    | Except.ok rows =>
      Except.ok ⟨if pyIn dollarsMark line then st.counter + 1 else st.counter,
        score, pyIn scoreMark line, pyIn variantMark line, rows⟩

/-- The whole per-file loop: `counter = 1`, flags false, `score` unbound. -/
def rdockScanFile (fname : String) (lines : List String) :
    Except PyError ScanState :=
  List.foldlM (rdockScanLine fname) ⟨1, none, false, false, []⟩ lines

/-- The rows contributed by one file. -/
def rdockParseFile (fname : String) (lines : List String) :
    Except PyError (List SdRow) :=
  (rdockScanFile fname lines).map ScanState.rows

/-- Does the record numbered `c` (with `acc` the number of the first record
in scope) contain a line matching `pat`?  Record numbers advance exactly as
`counter` does, on each line containing the `$$$$` delimiter. -/
def recordHasLineAux (pat : String) (c acc : Nat) : List String → Bool
  | [] => false
  | l :: rest =>
    (pyIn pat l && (acc == c)) ||
      recordHasLineAux pat c (if pyIn dollarsMark l then acc + 1 else acc) rest

/-- Does record `c` of the file contain a line matching `pat`? -/
def recordHasLine (pat : String) (lines : List String) (c : Nat) : Bool :=
  recordHasLineAux pat c 1 lines

theorem except_bind_ok {ε α β : Type} (a : α) (f : α → Except ε β) :
    ((Except.ok a : Except ε α) >>= f) = f a := rfl

theorem except_bind_error {ε α β : Type} (e : ε) (f : α → Except ε β) :
    ((Except.error e : Except ε α) >>= f) = Except.error e := rfl

theorem scanRows_spec {fname : String} {st : ScanState} {line : String}
    {score : Option String} {rows : List SdRow}
    (h : scanRows fname st line score = Except.ok rows) :
    ∀ row ∈ rows, row ∈ st.rows ∨ (st.confBool = true ∧ row.entry = st.counter) := by
  unfold scanRows at h
  split at h
  · split at h
    · split at h
      · injection h with h
        subst h
        intro row hrow
        rcases List.mem_append.1 hrow with hl | hr
        · exact Or.inl hl
        · rcases List.mem_singleton.1 hr with rfl
          exact Or.inr ⟨by assumption, rfl⟩
      · exact absurd h (by simp)
    · exact absurd h (by simp)
  · injection h with h
    subst h
    exact fun row hrow => Or.inl hrow

theorem rdockScanLine_spec {fname : String} {st st' : ScanState} {line : String}
    (h : rdockScanLine fname st line = Except.ok st') :
    st'.counter = (if pyIn dollarsMark line then st.counter + 1 else st.counter) ∧
    st'.scoreBool = pyIn scoreMark line ∧
    st'.confBool = pyIn variantMark line ∧
    (∀ row ∈ st'.rows,
      row ∈ st.rows ∨ (st.confBool = true ∧ row.entry = st.counter)) := by
  unfold rdockScanLine at h
  split at h
  · exact absurd h (by simp)
  · rename_i score hscore
    split at h
    · exact absurd h (by simp)
    · rename_i rows hrows
      injection h with h
      subst h
      exact ⟨rfl, rfl, rfl, scanRows_spec hrows⟩

theorem rdockScanFold_rows_marker :
    ∀ (lines : List String) (fname : String) (st0 st1 : ScanState),
      List.foldlM (rdockScanLine fname) st0 lines = Except.ok st1 →
      (∀ l ∈ lines, pyIn variantMark l = true → pyIn dollarsMark l = false) →
      ∀ row ∈ st1.rows, row ∈ st0.rows ∨
        (st0.confBool = true ∧ row.entry = st0.counter) ∨
        recordHasLineAux variantMark row.entry st0.counter lines = true := by
  intro lines
  induction lines with
  | nil =>
    intro fname st0 st1 h _ row hrow
    have h0 : st0 = st1 := by
      have : (Except.ok st0 : Except PyError ScanState) = Except.ok st1 := h
      injection this
    exact Or.inl (h0 ▸ hrow)
  | cons l rest ih =>
    intro fname st0 st1 h hsep row hrow
    rw [List.foldlM_cons] at h
    rcases hstep : rdockScanLine fname st0 l with e | stm
    · rw [hstep, except_bind_error] at h
      exact absurd h (by simp)
    · rw [hstep, except_bind_ok] at h
      rcases rdockScanLine_spec hstep with ⟨hc, _, hcb, hrows⟩
      have hsep' : ∀ l' ∈ rest, pyIn variantMark l' = true →
          pyIn dollarsMark l' = false :=
        fun l' hl' => hsep l' (List.mem_cons_of_mem _ hl')
      rcases ih fname stm st1 h hsep' row hrow with hin | ⟨hcb0, hent⟩ | hrec
      · rcases hrows row hin with hin0 | ⟨hconf, hent⟩
        · exact Or.inl hin0
        · exact Or.inr (Or.inl ⟨hconf, hent⟩)
      · have hvm : pyIn variantMark l = true := by rw [← hcb]; exact hcb0
        have hnd : pyIn dollarsMark l = false :=
          hsep l (List.mem_cons_self _ _) hvm
        have hcnt : stm.counter = st0.counter := by
          rw [hc, hnd]; simp
        refine Or.inr (Or.inr ?_)
        show recordHasLineAux variantMark row.entry st0.counter (l :: rest) = true
        simp only [recordHasLineAux, hvm, Bool.true_and, Bool.or_eq_true]
        exact Or.inl (by simp [hent, hcnt])
      · refine Or.inr (Or.inr ?_)
        show recordHasLineAux variantMark row.entry st0.counter (l :: rest) = true
        simp only [recordHasLineAux, Bool.or_eq_true]
        refine Or.inr ?_
        rw [← hc]
        exact hrec

theorem rdockScanFold_last :
    ∀ (pre : List String) (fname line : String) (st0 st1 : ScanState),
      List.foldlM (rdockScanLine fname) st0 (pre ++ [line]) = Except.ok st1 →
      ∃ stm, rdockScanLine fname stm line = Except.ok st1 := by
  intro pre
  induction pre with
  | nil =>
    intro fname line st0 st1 h
    rw [List.nil_append, List.foldlM_cons] at h
    rcases hstep : rdockScanLine fname st0 line with e | stm
    · rw [hstep, except_bind_error] at h
      exact absurd h (by simp)
    · rw [hstep, except_bind_ok] at h
      have h1 : (Except.ok stm : Except PyError ScanState) = Except.ok st1 := h
      have h2 : stm = st1 := by injection h1
      exact ⟨st0, by rw [hstep, h2]⟩
  | cons p pre' ih =>
    intro fname line st0 st1 h
    rw [List.cons_append, List.foldlM_cons] at h
    rcases hstep : rdockScanLine fname st0 p with e | stm
    · rw [hstep, except_bind_error] at h
      exact absurd h (by simp)
    · rw [hstep, except_bind_ok] at h
      exact ih fname line stm st1 h

/-- Claim C4, amended.  In the sharded scanner: (1) after scanning any prefix
of a file, each expect-value flag is true exactly when the last scanned line
contains that kind's marker, so a value line is consumed only immediately
after its marker; (2) provided no line mixes a marker with the `$$$$` record
delimiter, a record that provides no ligand-conformer identifier line
contributes no pose record (every produced row's record contains a variant
marker).  The original claim's further assertion, that a record lacking its
own score also contributes nothing, is refuted by
`rdockParse_keeps_scoreless_record`: the scanner reuses the most recent score
seen anywhere earlier in the file. -/
theorem rdockScan_value_after_marker_and_identifier_needed :
    (∀ (fname : String) (pre : List String) (line : String) (st' : ScanState),
      rdockScanFile fname (pre ++ [line]) = Except.ok st' →
      st'.scoreBool = pyIn scoreMark line ∧
      st'.confBool = pyIn variantMark line) ∧
    (∀ (fname : String) (lines : List String) (rows : List SdRow),
      rdockParseFile fname lines = Except.ok rows →
      (∀ l ∈ lines, pyIn variantMark l = true → pyIn dollarsMark l = false) →
      ∀ row ∈ rows, recordHasLine variantMark lines row.entry = true) := by
  constructor
  · intro fname pre line st' h
    rcases rdockScanFold_last pre fname line _ st' h with ⟨stm, hstep⟩
    rcases rdockScanLine_spec hstep with ⟨_, hsb, hcb, _⟩
    exact ⟨hsb, hcb⟩
  · intro fname lines rows h hsep row hrow
    rcases hscan : rdockScanFile fname lines with e | st1
    · rw [rdockParseFile, hscan] at h
      exact absurd h (by simp [Except.map])
    · rw [rdockParseFile, hscan] at h
      have hrows : st1.rows = rows := by
        have : (Except.ok st1.rows : Except PyError (List SdRow)) = Except.ok rows := h
        injection this
      rcases rdockScanFold_rows_marker lines fname _ st1 hscan hsep row
          (hrows ▸ hrow) with hin | ⟨hcb, _⟩ | hrec
      · simp at hin
      · simp at hcb
      · exact hrec

theorem rdockScan_value_after_marker_witness :
    ({ counter := 1, score := some "-7.1", scoreBool := false, confBool := false,
       rows := [] } : ScanState).scoreBool = pyIn scoreMark "-7.1" ∧
    ({ counter := 1, score := some "-7.1", scoreBool := false, confBool := false,
       rows := [] } : ScanState).confBool = pyIn variantMark "-7.1" :=
  rdockScan_value_after_marker_and_identifier_needed.1 "split0.sd"
    [">  <SCORE>"] "-7.1"
    { counter := 1, score := some "-7.1", scoreBool := false, confBool := false,
      rows := [] } rfl

/-- A shard file whose second record carries a variant identifier but no
score annotation of its own. -/
def staleScoreFile : List String :=
  [">  <SCORE>", "-9.4 RbtScore", ">  <s_lp_Variant>", "LIG1-1", "$$$$",
   ">  <s_lp_Variant>", "LIG2-3", "$$$$"]

/-- Claim C4, counterexample.  Record 2 of `staleScoreFile` contains no
`>  <SCORE>` marker, yet the scanner still emits a pose record for it,
filled with the score of record 1: incomplete records are neither dropped
nor kept separate from a neighbouring record's score. -/
theorem rdockParse_keeps_scoreless_record :
    rdockParseFile "split0.sd" staleScoreFile =
      Except.ok
        [{ fileName := "split0.sd", entry := 1, ligand := "LIG1",
           conformer := "1", score := "-9.4" },
         { fileName := "split0.sd", entry := 2, ligand := "LIG2",
           conformer := "3", score := "-9.4" }] ∧
    recordHasLine scoreMark staleScoreFile 2 = false ∧
    recordHasLine variantMark staleScoreFile 2 = true := by
  refine ⟨?_, by decide, by decide⟩
  rfl

/-! ## Result checkers (`_rdockDockingResultsChecker`, `_glideDockingResultsChecker`)

The filesystem is abstracted by its listings: `resultsFiles` is
`os.listdir` of the dock results directory, `scoreFolders` the per-ligand
subfolders (each given by its file listing).  Names returned by a listing
exist, so the `os.path.isfile` test on a joined listing entry succeeds. -/

/-- `_rdockDockingResultsChecker`.  Dock branch: pick the first `.sd` entry
(`IndexError` when none); the following `len(path_results) == 0 and
path_results[0].endswith('sd')` test is on a non-empty string and can never
raise (were the string empty, indexing it would raise `IndexError`).  Score
branch: count subfolders and `ligand_out.sd` files, divide, and fail with
`OutputError` when the ratio is not 1 (`ZeroDivisionError` with no input
folders).  Any other protocol fails with `ProtocolError`. -/
def rdockDockingResultsChecker (protocol : String) (resultsFiles : List String)
    (scoreFolders : List (List String)) : Except PyError Unit :=
  if protocol = "dock" then
    match resultsFiles.filter (fun x => x.endsWith ".sd") with
    | [] => Except.error PyError.indexError
    | p :: _ =>
      if p.length = 0 then Except.error PyError.indexError else Except.ok ()
  else if protocol = "score" then
    let inputFolders : Nat := scoreFolders.length
    let outputFiles : Nat := (scoreFolders.map (fun f => f.count "ligand_out.sd")).sum
    if inputFolders = 0 then Except.error PyError.zeroDivisionError
    else if (outputFiles : ℚ) / (inputFolders : ℚ) ≠ 1 then
      Except.error PyError.outputError
    else Except.ok ()
  else Except.error PyError.protocolError

/-- `_glideDockingResultsChecker`.  Dock branch: pick the first `.csv` entry
(`IndexError` when none; the `isfile` test then succeeds).  Score branch: for
every ligand folder (skipping `.ipynb_checkpoints` and `glide_score.csv`)
pick the first `*_score.csv` entry (`IndexError` when none), and raise
`ResultsMissingError` only when the collected list is empty.  There is no
`else` branch: any other protocol value falls through and the method returns
normally. -/
def glideDockingResultsChecker (protocol : String) (jobFiles : List String)
    (scoreFolders : List (String × List String)) : Except PyError Unit :=
  if protocol = "dock" then
    match jobFiles.filter (fun x => x.endsWith ".csv") with
    | [] => Except.error PyError.indexError
    | _ :: _ => Except.ok ()
  else if protocol = "score" then
    let ligandFolders := scoreFolders.filter
      (fun p => (p.1 != ".ipynb_checkpoints") && (p.1 != "glide_score.csv"))
    match ligandFolders.mapM (fun p =>
        match p.2.filter (fun x => x.endsWith "_score.csv") with
        | [] => Except.error PyError.indexError
        | c :: _ => Except.ok c) with
    | Except.error e => Except.error e
    | Except.ok paths =>
      if paths.length = 0 then Except.error PyError.resultsMissingError
      else Except.ok ()
  else Except.ok ()

/-! ## Claim C6: protocol validation -/

/-- Claim C6, counterexample.  The Glide checker has no `else` branch: an
unknown protocol value is accepted silently instead of failing with
`ProtocolError`. -/
theorem glideChecker_accepts_unknown_protocol :
    glideDockingResultsChecker "minimize" [] [] = Except.ok () := rfl

/-- Claim C6, amended.  For every protocol value other than `dock` and
`score`, the rDock checker fails with `ProtocolError`; the Glide checker
accepts the value and returns normally (its missing `else` branch). -/
theorem checker_unknown_protocol_behaviour
    (p : String) (files : List String) (folders : List (List String))
    (gfiles : List String) (gfolders : List (String × List String))
    (h1 : p ≠ "dock") (h2 : p ≠ "score") :
    rdockDockingResultsChecker p files folders =
      Except.error PyError.protocolError ∧
    glideDockingResultsChecker p gfiles gfolders = Except.ok () := by
  constructor
  · unfold rdockDockingResultsChecker
    rw [if_neg h1, if_neg h2]
  · unfold glideDockingResultsChecker
    rw [if_neg h1, if_neg h2]

theorem checker_unknown_protocol_behaviour_witness :
    rdockDockingResultsChecker "minimise" [] [] =
      Except.error PyError.protocolError ∧
    glideDockingResultsChecker "minimise" [] [] = Except.ok () :=
  checker_unknown_protocol_behaviour "minimise" [] [] [] []
    (by decide) (by decide)

/-! ## Claim C5: score-protocol discovery -/

theorem count_sum_le (folders : List (List String))
    (hn : ∀ f ∈ folders, f.Nodup) :
    ((folders.map (fun f => f.count "ligand_out.sd")).sum ≤ folders.length) := by
  induction folders with
  | nil => simp
  | cons f fs ih =>
    simp only [List.map_cons, List.sum_cons, List.length_cons]
    have h1 : f.count "ligand_out.sd" ≤ 1 :=
      List.nodup_iff_count_le_one.1 (hn f (List.mem_cons_self _ _)) _
    have h2 := ih (fun g hg => hn g (List.mem_cons_of_mem _ hg))
    omega

theorem count_sum_eq_iff (folders : List (List String))
    (hn : ∀ f ∈ folders, f.Nodup) :
    ((folders.map (fun f => f.count "ligand_out.sd")).sum = folders.length ↔
      ∀ f ∈ folders, "ligand_out.sd" ∈ f) := by
  induction folders with
  | nil => simp
  | cons f fs ih =>
    simp only [List.map_cons, List.sum_cons, List.length_cons]
    have h1 : f.count "ligand_out.sd" ≤ 1 :=
      List.nodup_iff_count_le_one.1 (hn f (List.mem_cons_self _ _)) _
    have h2 := count_sum_le fs (fun g hg => hn g (List.mem_cons_of_mem _ hg))
    have h3 := ih (fun g hg => hn g (List.mem_cons_of_mem _ hg))
    constructor
    · intro h
      have hc1 : f.count "ligand_out.sd" = 1 := by omega
      have hcs : (fs.map (fun f => f.count "ligand_out.sd")).sum = fs.length := by
        omega
      intro g hg
      rcases List.mem_cons.1 hg with rfl | hg'
      · exact List.count_pos_iff.1 (by omega)
      · exact h3.1 hcs g hg'
    · intro h
      have hc1 : f.count "ligand_out.sd" = 1 := by
        have : 0 < f.count "ligand_out.sd" :=
          List.count_pos_iff.2 (h f (List.mem_cons_self _ _))
        omega
      have hcs : (fs.map (fun f => f.count "ligand_out.sd")).sum = fs.length :=
        h3.2 (fun g hg => h g (List.mem_cons_of_mem _ hg))
      omega

/-- Claim C5, amended.  For the score protocol (sharded tool), with at least
one input subfolder, discovery succeeds exactly when every input subfolder
contains its `ligand_out.sd` output; whenever some folder lacks it — in
particular when zero folders contain an output — it fails with the
output-count error (`OutputError` in the source, `OutputCountMismatch` in
the specification's taxonomy), never with `ResultsMissingError`.  With no
input folders at all the ratio computation divides by zero. -/
theorem rdockScoreChecker_ratio (folders : List (List String))
    (files : List String) (hne : folders ≠ [])
    (hn : ∀ f ∈ folders, f.Nodup) :
    (rdockDockingResultsChecker "score" files folders = Except.ok () ↔
      ∀ f ∈ folders, "ligand_out.sd" ∈ f) ∧
    ((∃ f ∈ folders, "ligand_out.sd" ∉ f) →
      rdockDockingResultsChecker "score" files folders =
        Except.error PyError.outputError) := by
  have hlen : folders.length ≠ 0 := fun hc => hne (List.length_eq_zero.1 hc)
  have hcast : (folders.length : ℚ) ≠ 0 := Nat.cast_ne_zero.2 hlen
  set outN : ℕ := (folders.map (fun f => f.count "ligand_out.sd")).sum with hout
  have hratio : ((outN : ℚ) / (folders.length : ℚ) = 1) ↔ outN = folders.length := by
    rw [div_eq_iff hcast, one_mul]
    exact Nat.cast_inj
  have hrun : rdockDockingResultsChecker "score" files folders =
      (if (outN : ℚ) / (folders.length : ℚ) ≠ 1 then
        Except.error PyError.outputError
      else Except.ok ()) := by
    unfold rdockDockingResultsChecker
    rw [if_neg (by decide : ¬("score" : String) = "dock"),
      if_pos rfl, if_neg hlen]
  constructor
  · rw [hrun]
    by_cases hr : (outN : ℚ) / (folders.length : ℚ) = 1
    · rw [if_neg (by simpa using hr)]
      simp only [true_iff]
      exact (count_sum_eq_iff folders hn).1 (hratio.1 hr)
    · rw [if_pos hr]
      constructor
      · intro hc; cases hc
      · intro hall
        exact absurd (hratio.2 ((count_sum_eq_iff folders hn).2 hall)) hr
  · rintro ⟨f, hf, hnotin⟩
    rw [hrun]
    have hne1 : ¬ ∀ g ∈ folders, "ligand_out.sd" ∈ g :=
      fun hall => hnotin (hall f hf)
    have hne2 : ¬ (outN = folders.length) :=
      fun hc => hne1 ((count_sum_eq_iff folders hn).1 hc)
    rw [if_pos (fun hc => hne2 (hratio.1 hc))]

theorem rdockScoreChecker_ratio_witness :
    rdockDockingResultsChecker "score" []
      (List.replicate 9 ["ligand_out.sd"] ++ [["ligand.sd"]]) =
      Except.error PyError.outputError :=
  (rdockScoreChecker_ratio (List.replicate 9 ["ligand_out.sd"] ++ [["ligand.sd"]])
      [] (by decide) (by decide)).2 ⟨["ligand.sd"], by decide, by decide⟩

/-- Claim C5, counterexample.  With one input subfolder and zero output
files, the score-protocol checker fails with the output-count error
(`OutputError`), not with `ResultsMissingError` as the claim states: the
score branch of `_rdockDockingResultsChecker` has no `ResultsMissingError`
path at all. -/
theorem rdockScoreChecker_zero_outputs_not_resultsMissing :
    rdockDockingResultsChecker "score" [] [["ligand.sd"]] =
      Except.error PyError.outputError ∧
    (Except.error PyError.outputError : Except PyError Unit) ≠
      Except.error PyError.resultsMissingError := by
  constructor
  · unfold rdockDockingResultsChecker
    rw [if_neg (by decide : ¬("score" : String) = "dock"), if_pos rfl,
      if_neg (by decide : ¬([["ligand.sd"]] : List (List String)).length = 0)]
    split
    · rfl
    · rename_i hq
      push_neg at hq
      have h0 : (([["ligand.sd"]] : List (List String)).map
          (fun f => f.count "ligand_out.sd")).sum = 0 := by decide
      rw [h0] at hq
      norm_num at hq
  · decide

/-! ## Correlation engine (`_correlationPlotter`) and `scipy.stats.linregress`

`np.mean`, `np.std` (population, divide by N) and the z-score division of
`_correlationPlotter`, over `ℝ`.  Division by a zero standard deviation
produces a non-finite float (a numpy warning, not an exception); a float is
therefore modelled as `Option ℝ` with `none` for a non-finite value where
that matters.  `scipy.stats.linregress` is an external library call: its
statistics are modelled by the ordinary-least-squares formulas it documents
(slope `ssxym/ssxm`, intercept `ymean - slope*xmean`, correlation
coefficient `ssxym/sqrt(ssxm*ssym)`; the `1/n` factors of scipy's
covariances cancel in each quotient and are dropped), and its input guards
— `ValueError` on empty input, on identical x values with `len(x) > 1`,
and on mismatched lengths inside `np.cov` — are modelled in `linregressF`
below. -/

/-- `np.mean`. -/
noncomputable def pyMean (l : List ℝ) : ℝ := l.sum / l.length

/-- `np.var` (population variance, denominator N). -/
noncomputable def pyVar (l : List ℝ) : ℝ :=
  (l.map (fun v => (v - pyMean l) ^ 2)).sum / l.length

/-- `np.std` (population). -/
noncomputable def pyStd (l : List ℝ) : ℝ := Real.sqrt (pyVar l)

/-- `(x - np.mean(x)) / np.std(x)` — lines 108-109 of the source. -/
noncomputable def zscore (l : List ℝ) : List ℝ :=
  l.map (fun v => (v - pyMean l) / pyStd l)

/-- Centered second moment `Σ (xᵢ-x̄)²` (scipy's `ssxm` times `n`). -/
noncomputable def ssq (x : List ℝ) : ℝ := (x.map (fun v => (v - pyMean x) ^ 2)).sum

/-- Centered mixed moment `Σ (xᵢ-x̄)(yᵢ-ȳ)` (scipy's `ssxym` times `n`). -/
noncomputable def sxy (x y : List ℝ) : ℝ :=
  (List.zipWith (fun a b => (a - pyMean x) * (b - pyMean y)) x y).sum

/-- The correlation coefficient `r` of `scipy.stats.linregress`. -/
noncomputable def pearsonR (x y : List ℝ) : ℝ :=
  sxy x y / Real.sqrt (ssq x * ssq y)

/-- `m, n, r` of `scipy.stats.linregress` (the p-value and standard error
are not modelled). -/
noncomputable def linregress (x y : List ℝ) : ℝ × ℝ × ℝ :=
  (sxy x y / ssq x, pyMean y - (sxy x y / ssq x) * pyMean x, pearsonR x y)

/-- IEEE division as it occurs in the z-score step: finite quotient unless
the divisor is zero, in which case numpy emits a runtime warning and
produces a non-finite value (NaN here: for a zero standard deviation the
numerator is also zero).  `none` models a non-finite float. -/
noncomputable def fdiv (a b : ℝ) : Option ℝ :=
  if b = 0 then none else some (a / b)

/-- `(x - np.mean(x)) / np.std(x)` (lines 108-109) with the zero-divisor
case tracked: for a constant vector every entry becomes NaN. -/
noncomputable def zscoreF (x : List ℝ) : List (Option ℝ) :=
  x.map (fun v => fdiv (v - pyMean x) (pyStd x))

/-- scipy's `np.amax(x) == np.amin(x)` test: true exactly when every entry
is finite and all entries are equal — a NaN anywhere makes the comparison
false, so a NaN vector does not trigger the identical-values guard. -/
def identicalFinite (x : List (Option ℝ)) : Prop :=
  (∀ v ∈ x, v ≠ none) ∧ ∀ a ∈ x, ∀ b ∈ x, a = b

/-- The `m, n, r` triple `linregress` returns once its guards pass: the
real-valued statistics when every entry is finite, all-NaN otherwise (a NaN
input contaminates every scipy output). -/
noncomputable def linregressOpt (x y : List (Option ℝ)) :
    Option ℝ × Option ℝ × Option ℝ :=
  match x.mapM id, y.mapM id with
  | some xr, some yr =>
    (some (linregress xr yr).1, some (linregress xr yr).2.1,
      some (linregress xr yr).2.2)
  | _, _ => (none, none, none)

open Classical in
/-- `scipy.stats.linregress` with its input guards, in scipy's order:
raises `ValueError` ("Inputs must not be empty.") on empty input; raises
`ValueError` ("Cannot calculate a linear regression if all x values are
identical") when all x values are identical and `len(x) > 1`; then the
`np.cov` call raises `ValueError` on mismatched lengths; otherwise the
statistics are returned. -/
noncomputable def linregressF (x y : List (Option ℝ)) :
    Except PyError (Option ℝ × Option ℝ × Option ℝ) :=
  if x = [] ∨ y = [] then Except.error PyError.valueError
  else if identicalFinite x ∧ 1 < x.length then Except.error PyError.valueError
  else if x.length ≠ y.length then Except.error PyError.valueError
  else Except.ok (linregressOpt x y)

/-- The numeric core of `_correlationPlotter` with scipy's error behaviour:
z-score both vectors (lines 108-109), regress the z-scored pair (line 111),
then regress the raw pair (line 131); a `ValueError` raised by either
`linregress` call aborts the method.  The method itself contains no `raise`
and no length or variance check. -/
noncomputable def correlationPlotterF (x y : List ℝ) :
    Except PyError ((Option ℝ × Option ℝ × Option ℝ) ×
      (Option ℝ × Option ℝ × Option ℝ)) :=
  (linregressF (zscoreF x) (zscoreF y)) >>= fun rz =>
    (linregressF (x.map some) (y.map some)).map fun rr => (rz, rr)

/-! ## Molecular weights (`_molecularWeightCalculator`) -/

/-- One application of the inner `calculate_molecular_weight`:
`Chem.MolFromSmiles` returns `None` on an unparseable SMILES, and
`ExactMolWt(None)` then raises (modelled as `typeError`) instead of
recording any per-index error. -/
def calcMolecularWeight {Mol : Type} (parse : String → Option Mol)
    (wt : Mol → ℚ) (smiles : String) : Except PyError ℚ :=
  match parse smiles with
  | some mol => Except.ok (wt mol)
  | none => Except.error PyError.typeError

/-- `df.iloc[:, 0].apply(calculate_molecular_weight)`: the first exception
aborts the whole batch. -/
def molecularWeights {Mol : Type} (parse : String → Option Mol)
    (wt : Mol → ℚ) (smilesList : List String) : Except PyError (List ℚ) :=
  smilesList.mapM (calcMolecularWeight parse wt)

/-- Stand-in for RDKit's `MolFromSmiles` over a toy molecule type: exactly
one unparseable string.  (RDKit is an external library; only the shape
`unparseable ↦ None` matters here.) -/
def parseDemo : String → Option Unit :=
  fun s => if s = "C1CC1C(" then none else some ()

/-- Claim C8.  The descriptor batch does not recover from an unparseable
SMILES: with the invalid string at index 1, the whole batch fails with the
`TypeError` raised by `ExactMolWt(None)` — no `DescriptorError` is recorded
and the valid indices 0 and 2 are lost — whereas the same batch without the
invalid entry succeeds. -/
theorem molecularWeights_crash_on_invalid :
    molecularWeights parseDemo (fun _ => (42 : ℚ)) ["CCO", "C1CC1C(", "O"] =
      Except.error PyError.typeError ∧
    molecularWeights parseDemo (fun _ => (42 : ℚ)) ["CCO", "O"] =
      Except.ok [42, 42] :=
  ⟨rfl, rfl⟩

/-! ## `glideAnalysis` stage sequencing (claim C10) -/

/-- Number of positional parameters (after `self`) of `_correlation`
(line 587: `experimental_data, column_name, protocol`). -/
def correlationParamCount : Nat := 3

/-- Number of positional arguments passed to `self._correlation` by
`glideAnalysis` (line 651: `experimental_data, column_name`). -/
def glideAnalysisCorrelationArgCount : Nat := 2

/-- Python call binding: a call with the wrong number of positional
arguments raises `TypeError` before the callee's body runs. -/
def pyCallBind (required given : Nat) : Except PyError Unit :=
  if given = required then Except.ok () else Except.error PyError.typeError

/-- The statement sequence of `glideAnalysis`: results checker, dataframe
retriever, molecular-weight calculator, then the `self._correlation(...)`
call (which must bind 2 arguments against 3 parameters), then the time
plotter.  The earlier stages are abstracted by their outcomes. -/
def glideAnalysisRun (checker retriever mwcalc timePlotter :
    Except PyError Unit) : Except PyError Unit :=
  match checker with
  | Except.error e => Except.error e
  | Except.ok _ =>
    match retriever with
    | Except.error e => Except.error e
    | Except.ok _ =>
      match mwcalc with
      | Except.error e => Except.error e
      | Except.ok _ =>
        match pyCallBind correlationParamCount glideAnalysisCorrelationArgCount with
        | Except.error e => Except.error e
        | Except.ok _ => timePlotter

/-- Claim C10.  `glideAnalysis` can never run to completion: whatever the
earlier stages do, the run never succeeds, and whenever the stages before
the correlation step succeed the run fails with exactly the `TypeError`
raised by calling three-parameter `_correlation` with two arguments — the
correlation step and the time plotter never execute. -/
theorem glideAnalysis_always_typeError :
    (∀ checker retriever mwcalc timePlotter : Except PyError Unit,
      glideAnalysisRun checker retriever mwcalc timePlotter ≠ Except.ok ()) ∧
    (∀ timePlotter : Except PyError Unit,
      glideAnalysisRun (Except.ok ()) (Except.ok ()) (Except.ok ()) timePlotter =
        Except.error PyError.typeError) := by
  constructor
  · intro checker retriever mwcalc timePlotter h
    rcases checker with e | u
    · exact absurd h (by simp [glideAnalysisRun])
    · rcases retriever with e | u
      · exact absurd h (by simp [glideAnalysisRun])
      · rcases mwcalc with e | u
        · exact absurd h (by simp [glideAnalysisRun])
        · exact absurd h (by simp [glideAnalysisRun, pyCallBind,
            correlationParamCount, glideAnalysisCorrelationArgCount])
  · intro timePlotter
    rfl

/-! ## Claim C7: no validation in the correlation engine -/

theorem list_sum_const (c : ℝ) :
    ∀ (l : List ℝ), (∀ v ∈ l, v = c) → l.sum = l.length * c := by
  intro l
  induction l with
  | nil => simp
  | cons x xs ih =>
    intro h
    have hx : x = c := h x (List.mem_cons_self _ _)
    have hs := ih (fun v hv => h v (List.mem_cons_of_mem _ hv))
    simp only [List.sum_cons, List.length_cons, hx, hs]
    push_cast
    ring

theorem pyMean_const {l : List ℝ} {c : ℝ} (hne : l ≠ [])
    (hc : ∀ v ∈ l, v = c) : pyMean l = c := by
  have hlen : (l.length : ℝ) ≠ 0 :=
    Nat.cast_ne_zero.2 (fun h => hne (List.length_eq_zero.1 h))
  rw [pyMean, list_sum_const c l hc, mul_comm, mul_div_assoc, div_self hlen,
    mul_one]

theorem pyStd_const {l : List ℝ} {c : ℝ} (hne : l ≠ [])
    (hc : ∀ v ∈ l, v = c) : pyStd l = 0 := by
  have hm := pyMean_const hne hc
  have hv : pyVar l = 0 := by
    rw [pyVar]
    have hz : (l.map (fun v => (v - pyMean l) ^ 2)).sum = 0 := by
      apply List.sum_eq_zero
      intro t ht
      rcases List.mem_map.1 ht with ⟨v, hv, rfl⟩
      rw [hm, hc v hv, sub_self]
      ring
    rw [hz, zero_div]
  rw [pyStd, hv, Real.sqrt_zero]

theorem except_map_ok {ε α β : Type} (a : α) (f : α → β) :
    (Except.ok a : Except ε α).map f = Except.ok (f a) := rfl

theorem except_map_error {ε α β : Type} (e : ε) (f : α → β) :
    ((Except.error e : Except ε α).map f : Except ε β) = Except.error e := rfl

theorem fdiv_zero (a : ℝ) : fdiv a 0 = none := if_pos rfl

theorem zscoreF_of_std_zero {x : List ℝ} (h : pyStd x = 0) :
    zscoreF x = x.map (fun _ => none) := by
  rw [zscoreF]
  refine List.map_congr_left ?_
  intro v _
  rw [h, fdiv_zero]

theorem zscoreF_ne_nil {x : List ℝ} (h : x ≠ []) : zscoreF x ≠ [] := by
  rw [zscoreF]
  simpa using h

theorem zscoreF_length (x : List ℝ) : (zscoreF x).length = x.length := by
  rw [zscoreF, List.length_map]

theorem not_identicalFinite_allNone {x : List ℝ} (h : x ≠ []) :
    ¬ identicalFinite (x.map (fun _ => (none : Option ℝ))) := by
  rcases x with _ | ⟨a, rest⟩
  · exact absurd rfl h
  · rintro ⟨hfin, _⟩
    exact hfin none (by simp) rfl

theorem identicalFinite_map_some {x : List ℝ} {c : ℝ} (hc : ∀ v ∈ x, v = c) :
    identicalFinite (x.map some) := by
  constructor
  · intro v hv
    rcases List.mem_map.1 hv with ⟨r, _, rfl⟩
    simp
  · intro a ha b hb
    rcases List.mem_map.1 ha with ⟨ra, hra, rfl⟩
    rcases List.mem_map.1 hb with ⟨rb, hrb, rfl⟩
    rw [hc ra hra, hc rb hrb]

theorem linregressF_empty {x y : List (Option ℝ)} (h : x = [] ∨ y = []) :
    linregressF x y = Except.error PyError.valueError := by
  rw [linregressF, if_pos h]

theorem linregressF_identical {x y : List (Option ℝ)}
    (hne : ¬(x = [] ∨ y = [])) (hid : identicalFinite x)
    (hlen : 1 < x.length) :
    linregressF x y = Except.error PyError.valueError := by
  rw [linregressF, if_neg hne, if_pos (And.intro hid hlen)]

theorem linregressF_ok {x y : List (Option ℝ)}
    (hne : ¬(x = [] ∨ y = [])) (hguard : ¬(identicalFinite x ∧ 1 < x.length))
    (hlen : x.length = y.length) :
    linregressF x y = Except.ok (linregressOpt x y) := by
  rw [linregressF, if_neg hne, if_neg hguard, if_neg (not_not_intro hlen)]

/-- Claim C7, amended.  The correlation engine itself performs no
validation and never raises the specification's `InsufficientDataError` or
`DegenerateInputError` (neither name appears in the source); the failures
it exhibits are scipy's: (1) for a constant input vector of length > 1 the
z-score standardization divides by zero (`np.std` is 0, yielding a NaN
vector); the z-scored regression completes, because NaNs defeat scipy's
identical-values guard, and the raw regression then raises scipy's
`ValueError`; (2) a single-element pair completes normally, with NaN
statistics, instead of failing with `InsufficientDataError`; (3) an empty
pair fails with scipy's `ValueError` at the first regression call. -/
theorem correlationPlotter_scipy_errors :
    (∀ (x y : List ℝ) (c : ℝ), 1 < x.length → x.length = y.length →
      (∀ v ∈ x, v = c) →
      pyStd x = 0 ∧
      correlationPlotterF x y = Except.error PyError.valueError) ∧
    (∀ a b : ℝ, ∃ out, correlationPlotterF [a] [b] = Except.ok out) ∧
    (correlationPlotterF [] [] = Except.error PyError.valueError) := by
  refine ⟨?_, ?_, ?_⟩
  · intro x y c h1 hlen hc
    have hne : x ≠ [] := by
      intro h
      rw [h] at h1
      simp at h1
    have hney : y ≠ [] := by
      intro h
      rw [h, List.length_nil] at hlen
      omega
    have hstd := pyStd_const hne hc
    refine ⟨hstd, ?_⟩
    have hzx : zscoreF x = x.map (fun _ => none) := zscoreF_of_std_zero hstd
    have hfirst : linregressF (zscoreF x) (zscoreF y) =
        Except.ok (linregressOpt (zscoreF x) (zscoreF y)) := by
      apply linregressF_ok
      · rintro (h | h)
        · exact zscoreF_ne_nil hne h
        · exact zscoreF_ne_nil hney h
      · rw [hzx]
        rintro ⟨hid, _⟩
        exact not_identicalFinite_allNone hne hid
      · rw [zscoreF_length, zscoreF_length, hlen]
    have hsecond : linregressF (x.map some) (y.map some) =
        Except.error PyError.valueError := by
      apply linregressF_identical
      · rintro (h | h)
        · exact hne (List.map_eq_nil_iff.1 h)
        · exact hney (List.map_eq_nil_iff.1 h)
      · exact identicalFinite_map_some hc
      · simpa using h1
    rw [correlationPlotterF, hfirst, except_bind_ok, hsecond, except_map_error]
  · intro a b
    refine ⟨(linregressOpt (zscoreF [a]) (zscoreF [b]),
      linregressOpt ([a].map some) ([b].map some)), ?_⟩
    have h1 : linregressF (zscoreF [a]) (zscoreF [b]) =
        Except.ok (linregressOpt (zscoreF [a]) (zscoreF [b])) := by
      apply linregressF_ok
      · rintro (h | h)
        · exact zscoreF_ne_nil (by simp) h
        · exact zscoreF_ne_nil (by simp) h
      · rintro ⟨_, hl⟩
        rw [zscoreF_length] at hl
        simp at hl
      · rw [zscoreF_length, zscoreF_length]
        rfl
    have h2 : linregressF ([a].map some) ([b].map some) =
        Except.ok (linregressOpt ([a].map some) ([b].map some)) := by
      apply linregressF_ok
      · rintro (h | h) <;> simp at h
      · rintro ⟨_, hl⟩
        simp at hl
      · rfl
    rw [correlationPlotterF, h1, except_bind_ok, h2, except_map_ok]
  · rw [correlationPlotterF,
      show zscoreF [] = [] from rfl,
      linregressF_empty (Or.inl rfl), except_bind_error]

theorem correlationPlotter_scipy_errors_witness :
    pyStd [(5 : ℝ), 5] = 0 ∧
    correlationPlotterF [(5 : ℝ), 5] [(1 : ℝ), 2] =
      Except.error PyError.valueError :=
  correlationPlotter_scipy_errors.1 [(5 : ℝ), 5] [(1 : ℝ), 2] 5
    (by decide) rfl (by simp)

/-- Claim C7, counterexample.  On the zero-variance vector `[5, 5, 5]` the
standardization divides by zero (`np.std` is exactly 0) and the method then
fails with scipy's `ValueError` raised by the raw regression — not with a
`DegenerateInputError` check before the division; and the single-element
pair `[5]`, `[7]` completes normally instead of failing with
`InsufficientDataError`. -/
theorem correlationPlotter_valueError_on_constant :
    pyStd [(5 : ℝ), 5, 5] = 0 ∧
    correlationPlotterF [(5 : ℝ), 5, 5] [(1 : ℝ), 2, 3] =
      Except.error PyError.valueError ∧
    correlationPlotterF [(5 : ℝ)] [(7 : ℝ)] =
      Except.ok (linregressOpt (zscoreF [(5 : ℝ)]) (zscoreF [(7 : ℝ)]),
        linregressOpt ([(5 : ℝ)].map some) ([(7 : ℝ)].map some)) := by
  have hstd : pyStd [(5 : ℝ), 5, 5] = 0 :=
    pyStd_const (show ([(5 : ℝ), 5, 5] : List ℝ) ≠ [] by simp)
      (show ∀ v ∈ [(5 : ℝ), 5, 5], v = 5 by simp)
  refine ⟨hstd, ?_, ?_⟩
  · have hzx : zscoreF [(5 : ℝ), 5, 5] =
        [(5 : ℝ), 5, 5].map (fun _ => none) := zscoreF_of_std_zero hstd
    have hfirst : linregressF (zscoreF [(5 : ℝ), 5, 5]) (zscoreF [(1 : ℝ), 2, 3]) =
        Except.ok (linregressOpt (zscoreF [(5 : ℝ), 5, 5])
          (zscoreF [(1 : ℝ), 2, 3])) := by
      apply linregressF_ok
      · rintro (h | h)
        · exact zscoreF_ne_nil (by simp) h
        · exact zscoreF_ne_nil (by simp) h
      · rw [hzx]
        rintro ⟨hid, _⟩
        exact not_identicalFinite_allNone (by simp) hid
      · rw [zscoreF_length, zscoreF_length]
        rfl
    have hsecond : linregressF ([(5 : ℝ), 5, 5].map some)
        ([(1 : ℝ), 2, 3].map some) = Except.error PyError.valueError := by
      apply linregressF_identical
      · rintro (h | h) <;> simp at h
      · exact identicalFinite_map_some (show ∀ v ∈ [(5 : ℝ), 5, 5], v = 5 by simp)
      · simp
    rw [correlationPlotterF, hfirst, except_bind_ok, hsecond, except_map_error]
  · have h1 : linregressF (zscoreF [(5 : ℝ)]) (zscoreF [(7 : ℝ)]) =
        Except.ok (linregressOpt (zscoreF [(5 : ℝ)]) (zscoreF [(7 : ℝ)])) := by
      apply linregressF_ok
      · rintro (h | h)
        · exact zscoreF_ne_nil (by simp) h
        · exact zscoreF_ne_nil (by simp) h
      · rintro ⟨_, hl⟩
        rw [zscoreF_length] at hl
        simp at hl
      · rw [zscoreF_length, zscoreF_length]
        rfl
    have h2 : linregressF ([(5 : ℝ)].map some) ([(7 : ℝ)].map some) =
        Except.ok (linregressOpt ([(5 : ℝ)].map some) ([(7 : ℝ)].map some)) := by
      apply linregressF_ok
      · rintro (h | h) <;> simp at h
      · rintro ⟨_, hl⟩
        simp at hl
      · rfl
    rw [correlationPlotterF, h1, except_bind_ok, h2, except_map_ok]

/-! ## Claim C9: Pearson r is invariant under the z-score transform -/

theorem sum_map_affine (a b : ℝ) (l : List ℝ) :
    (l.map (fun v => a * v + b)).sum = a * l.sum + l.length * b := by
  induction l with
  | nil => simp
  | cons x xs ih =>
    simp only [List.map_cons, List.sum_cons, List.length_cons, ih]
    push_cast
    ring

theorem pyMean_map_affine (a b : ℝ) (l : List ℝ) (hne : l ≠ []) :
    pyMean (l.map (fun v => a * v + b)) = a * pyMean l + b := by
  have hlen : (l.length : ℝ) ≠ 0 :=
    Nat.cast_ne_zero.2 (fun h => hne (List.length_eq_zero.1 h))
  rw [pyMean, List.length_map, sum_map_affine, pyMean]
  field_simp
  ring

theorem ssq_map_affine (a b : ℝ) (l : List ℝ) (hne : l ≠ []) :
    ssq (l.map (fun v => a * v + b)) = a ^ 2 * ssq l := by
  rw [ssq, ssq, List.map_map, pyMean_map_affine a b l hne]
  have hfun : ((fun w => (w - (a * pyMean l + b)) ^ 2) ∘ fun v => a * v + b) =
      (fun v => a ^ 2 * (v - pyMean l) ^ 2) := by
    funext v
    simp only [Function.comp]
    ring
  rw [hfun, List.sum_map_mul_left]

theorem sum_zipWith_mul_left (a : ℝ) (g : ℝ → ℝ → ℝ) :
    ∀ (x y : List ℝ),
      (List.zipWith (fun p q => a * g p q) x y).sum =
        a * (List.zipWith g x y).sum := by
  intro x
  induction x with
  | nil => intro y; simp
  | cons p ps ih =>
    intro y
    cases y with
    | nil => simp
    | cons q qs =>
      simp only [List.zipWith_cons_cons, List.sum_cons, ih]
      ring

theorem sxy_map_affine_left (a b : ℝ) (x y : List ℝ) (hne : x ≠ []) :
    sxy (x.map (fun v => a * v + b)) y = a * sxy x y := by
  have hfun : (fun (p q : ℝ) => ((a * p + b) - (a * pyMean x + b)) * (q - pyMean y)) =
      (fun p q => a * ((p - pyMean x) * (q - pyMean y))) := by
    funext p q
    ring
  rw [sxy, sxy, List.zipWith_map_left, pyMean_map_affine a b x hne, hfun]
  exact sum_zipWith_mul_left a (fun p q => (p - pyMean x) * (q - pyMean y)) x y

theorem sxy_map_affine_right (a b : ℝ) (x y : List ℝ) (hne : y ≠ []) :
    sxy x (y.map (fun v => a * v + b)) = a * sxy x y := by
  have hfun : (fun (p q : ℝ) => (p - pyMean x) * ((a * q + b) - (a * pyMean y + b))) =
      (fun p q => a * ((p - pyMean x) * (q - pyMean y))) := by
    funext p q
    ring
  rw [sxy, sxy, List.zipWith_map_right, pyMean_map_affine a b y hne, hfun]
  exact sum_zipWith_mul_left a (fun p q => (p - pyMean x) * (q - pyMean y)) x y

theorem pearsonR_map_affine_left (a b : ℝ) (ha : 0 < a) (x y : List ℝ)
    (hne : x ≠ []) :
    pearsonR (x.map (fun v => a * v + b)) y = pearsonR x y := by
  rw [pearsonR, pearsonR, sxy_map_affine_left a b x y hne,
    ssq_map_affine a b x hne,
    show a ^ 2 * ssq x * ssq y = a ^ 2 * (ssq x * ssq y) from by ring,
    Real.sqrt_mul (sq_nonneg a), Real.sqrt_sq ha.le,
    mul_div_mul_left _ _ (ne_of_gt ha)]

theorem pearsonR_map_affine_right (a b : ℝ) (ha : 0 < a) (x y : List ℝ)
    (hne : y ≠ []) :
    pearsonR x (y.map (fun v => a * v + b)) = pearsonR x y := by
  rw [pearsonR, pearsonR, sxy_map_affine_right a b x y hne,
    ssq_map_affine a b y hne,
    show ssq x * (a ^ 2 * ssq y) = a ^ 2 * (ssq x * ssq y) from by ring,
    Real.sqrt_mul (sq_nonneg a), Real.sqrt_sq ha.le,
    mul_div_mul_left _ _ (ne_of_gt ha)]

theorem zscore_eq_map_affine (l : List ℝ) :
    zscore l = l.map (fun v => (pyStd l)⁻¹ * v + (-(pyMean l / pyStd l))) := by
  rw [zscore]
  congr 1
  funext v
  ring

theorem pyVar_nonneg (l : List ℝ) : 0 ≤ pyVar l := by
  rw [pyVar]
  apply div_nonneg
  · apply List.sum_nonneg
    intro t ht
    rcases List.mem_map.1 ht with ⟨v, _, rfl⟩
    exact sq_nonneg _
  · exact Nat.cast_nonneg _

theorem pyStd_pos {l : List ℝ} (h : pyVar l ≠ 0) : 0 < pyStd l := by
  rw [pyStd]
  exact Real.sqrt_pos.2 (lt_of_le_of_ne (pyVar_nonneg l) (Ne.symm h))

theorem pearsonR_zscore_eq (x y : List ℝ) (hx : x ≠ []) (hy : y ≠ [])
    (hvx : pyVar x ≠ 0) (hvy : pyVar y ≠ 0) :
    pearsonR (zscore x) (zscore y) = pearsonR x y := by
  have hsx := pyStd_pos hvx
  have hsy := pyStd_pos hvy
  rw [zscore_eq_map_affine x, zscore_eq_map_affine y,
    pearsonR_map_affine_left _ _ (inv_pos.2 hsx) _ _ hx,
    pearsonR_map_affine_right _ _ (inv_pos.2 hsy) _ _ hy]

/-- Claim C9.  For vectors of equal length at least 2 with nonzero
(population) variance, the correlation coefficient reported by the raw
regression equals the one reported by the regression on the z-scored
vectors within `1e-9` (they are in fact equal: Pearson r is invariant under
the affine z-score transform with population standard deviation). -/
theorem linregress_r_zscore_invariant (x y : List ℝ)
    (hlen : x.length = y.length) (h2 : 2 ≤ x.length)
    (hvx : pyVar x ≠ 0) (hvy : pyVar y ≠ 0) :
    |(linregress x y).2.2 - (linregress (zscore x) (zscore y)).2.2| ≤
      1 / 10 ^ 9 := by
  have hx : x ≠ [] := by
    intro h
    rw [h] at h2
    simp at h2
  have hy : y ≠ [] := by
    intro h
    rw [h, List.length_nil] at hlen
    omega
  have heq := pearsonR_zscore_eq x y hx hy hvx hvy
  show |pearsonR x y - pearsonR (zscore x) (zscore y)| ≤ 1 / 10 ^ 9
  rw [heq, sub_self, abs_zero]
  positivity

theorem linregress_r_zscore_invariant_witness :
    |(linregress [(0 : ℝ), 1] [(0 : ℝ), 1]).2.2 -
        (linregress (zscore [(0 : ℝ), 1]) (zscore [(0 : ℝ), 1])).2.2| ≤
      1 / 10 ^ 9 :=
  linregress_r_zscore_invariant [(0 : ℝ), 1] [(0 : ℝ), 1] rfl (by decide)
    (by norm_num [pyVar, pyMean]) (by norm_num [pyVar, pyMean])
